import Mathlib

/-!
Shallow embedding of the `statec` reactive-state library (src/index.ts).

The library is a single TypeScript module.  Its core is the class
`State<V, T>`: a cell holding a current `value : V` and an append-only
list `effects` of subscriber callbacks; `update(trans)` runs the reducer
`handler(trans, current)`, commits the result, and then invokes every
registered effect with `(newValue, oldValue)` in registration order.
Combinators (`dependentState`, `lazyState`, `joinedState`) subscribe to
source states and drive a privately owned `BasicState`.

Modelling choices:
* Effect callbacks are opaque side-effecting functions; we model each
  registered effect by a `Nat` tag and record every invocation in a
  trace of `Call` entries `(tag, newValue, oldValue)`, in invocation
  order.  The `effects` field is the list of tags in registration order.
* The reducer `handler` is passed explicitly to the update functions
  (in the source it is a constructor argument stored on the instance).
* JavaScript `undefined` arguments (`V | undefined`) become `Option`.
* Sequentially completed updates (each update's reducer resolving before
  the next update begins, the regime of the spec's §8 properties) are a
  pure step function `State.update1` over a committed-value reducer
  `T → V → V`.
* The single-update pipeline with its JavaScript failure channels
  (synchronous throw inside an `async` method, promise rejection,
  fire-and-forget `update` discarding the promise) is modelled
  separately by `HandlerResult`, `State.asyncUpdateRun` and
  `State.updateSyncPhase`.
-/

namespace Statec

/-- One recorded effect invocation: `(effect tag, newValue, oldValue)`. -/
abbrev Call (V : Type) := Nat × V × V

/-- The mutable cell of `class State<V, T>`: the current `value` and the
append-only list of registered effects (modelled by their tags, in
registration order). -/
structure State (V : Type) where
  value : V
  effects : List Nat
  deriving Repr, DecidableEq

/-- `get()` — returns the current value. -/
def State.get (s : State V) : V := s.value

/-- `effect(func)` — appends a subscriber to the effect list
(`this.effects.push(func)`). -/
def State.effect (s : State V) (tag : Nat) : State V :=
  ⟨s.value, s.effects ++ [tag]⟩

/-- One completed update (`asyncUpdate` run to completion with a reducer
invocation that committed a value): capture `old = this.value`, compute
`value = handler(trans, old)`, commit it, then invoke every registered
effect with `(value, old)` in registration order
(`this.effects.forEach((e) => e(this.value, old))`).  Returns the new
cell together with the trace of effect invocations. -/
def State.update1 (handler : T → V → V) (s : State V) (trans : T) :
    State V × List (Call V) :=
  let old := s.value
  let v := handler trans old
  (⟨v, s.effects⟩, s.effects.map fun tag => (tag, v, old))

/-- A sequence of completed updates, in order; concatenates nothing:
returns the final cell and the per-update traces (one list of calls per
update, in update order). -/
def State.runUpdates (handler : T → V → V) (s : State V) :
    List T → State V × List (List (Call V))
  | [] => (s, [])
  | t :: ts =>
    let p := s.update1 handler t
    let q := p.1.runUpdates handler ts
    (q.1, p.2 :: q.2)

/-- The `(old, new)` value pair of each successive update, starting from
`v0`: the i-th entry is (value immediately before the i-th update, value
immediately after it). -/
def updSteps (handler : T → V → V) : V → List T → List (V × V)
  | _, [] => []
  | v, t :: ts => (v, handler t v) :: updSteps handler (handler t v) ts

/-- The reducer of `BasicState`: `(newValue) => newValue` — the
transaction becomes the new value. -/
def basicHandler (newValue : V) (_current : V) : V := newValue

/-- Outcome of one reducer invocation `this.handler(trans, old)` in the
source: it may throw synchronously (`thrown`), return a plain value
(`immediate`), or return a Promise that eventually resolves or rejects
(`deferred`).  `E` is the type of thrown errors / rejection reasons. -/
inductive HandlerResult (V E : Type) where
  | thrown (e : E)
  | immediate (v : V)
  | deferred (r : Except E V)
  deriving Repr

/-- The observable outcome of `asyncUpdate(trans)` taken to completion:
the resulting cell, the trace of effect invocations, and the settlement
of the Promise that `asyncUpdate` returns to its caller
(`Except.ok ()` = fulfilled, `Except.error e` = rejected with `e`). -/
structure AsyncRun (V E : Type) where
  state : State V
  calls : List (Call V)
  promise : Except E Unit
  deriving Repr

/-- `async asyncUpdate(trans)` run to completion: capture
`old = this.value`; compute `this.handler(trans, old)`.  A synchronous
throw inside an `async` method rejects the returned Promise (nothing is
committed, no effect runs).  Otherwise the candidate — awaited if it is
a Promise — is committed and every effect fires with `(value, old)`;  a
rejected reducer Promise makes the `await` rethrow, which again rejects
`asyncUpdate`'s Promise with nothing committed and no effect run. -/
def State.asyncUpdateRun (handler : T → V → HandlerResult V E)
    (s : State V) (trans : T) : AsyncRun V E :=
  let old := s.value
  match handler trans old with
  | .thrown e => ⟨s, [], .error e⟩
  | .immediate v =>
      ⟨⟨v, s.effects⟩, s.effects.map (fun tag => (tag, v, old)), .ok ()⟩
  | .deferred (.ok v) =>
      ⟨⟨v, s.effects⟩, s.effects.map (fun tag => (tag, v, old)), .ok ()⟩
  | .deferred (.error e) => ⟨s, [], .error e⟩

/-- What has already happened at the moment the fire-and-forget
`update(trans): void { this.asyncUpdate(trans); }` returns control to
its caller.  A JavaScript `async` method body runs synchronously up to
its first `await`, and an exception thrown before that point rejects
the returned Promise instead of propagating; calling `update` therefore
never raises in the caller (`callerThrown` is `none` in every branch of
`updateSyncPhase`, by the semantics of `async`).  Since `update`
discards the Promise, such a rejection surfaces only as a host-level
unhandled rejection (`unhandledRejection`).  `pendingAwait` records
that the reducer returned a Promise and commit/effects are still
outstanding when `update` returns. -/
structure SyncPhase (V E : Type) where
  state : State V
  calls : List (Call V)
  callerThrown : Option E
  unhandledRejection : Option E
  pendingAwait : Bool
  deriving Repr, DecidableEq

/-- The synchronous phase of `update(trans)` (see `SyncPhase`). -/
def State.updateSyncPhase (handler : T → V → HandlerResult V E)
    (s : State V) (trans : T) : SyncPhase V E :=
  let old := s.value
  match handler trans old with
  | .thrown e => ⟨s, [], none, some e, false⟩
  | .immediate v =>
      ⟨⟨v, s.effects⟩, s.effects.map (fun tag => (tag, v, old)),
        none, none, false⟩
  | .deferred _ => ⟨s, [], none, none, true⟩

/-- A reducer that always throws synchronously, for exercising the
failure path. -/
def throwingHandler (_ : Unit) (_ : Nat) : HandlerResult Nat String :=
  .thrown "boom"

/-- A plain (never failing, never deferring) reducer adding the
transaction to the current value, for exercising the synchronous
commit path. -/
def incHandler (t : Nat) (v : Nat) : HandlerResult Nat String :=
  .immediate (v + t)

/-- JavaScript `Array.prototype.indexOf`: the index of the first
occurrence (by `===` comparison), or `-1` when the element is absent. -/
def jsIndexOf [DecidableEq E] (l : List E) (e : E) : Int :=
  match l.findIdx? (fun x => x == e) with
  | some i => (i : Int)
  | none => -1

/-- JavaScript `Array.prototype.splice(start, 1)` restricted to its
delete effect: a negative `start` counts back from the end (clamped at
0), a `start` at or past the end deletes nothing, and otherwise the
element at index `start` is removed. -/
def jsSpliceDelete1 (l : List E) (start : Int) : List E :=
  let s : Nat := (if start < 0 then max ((l.length : Int) + start) 0
    else min start (l.length : Int)).toNat
  l.take s ++ l.drop (s + 1)

/-- The transaction of `ArrayState`: the source tests `"add" in trans`
and `"remove" in trans` independently, so the model carries both
optional keys. -/
structure ArrayTrans (E : Type) where
  add? : Option E
  remove? : Option E
  deriving Repr, DecidableEq

/-- The reducer of `ArrayState`:
`const list = [...current];`
`if ("add" in trans) list.push(trans.add);`
`if ("remove" in trans) list.splice(list.indexOf(trans.remove), 1);`
`return list;` -/
def arrayHandler [DecidableEq E] (trans : ArrayTrans E)
    (current : List E) : List E :=
  let list := current
  let list := match trans.add? with
    | some e => list ++ [e]
    | none => list
  match trans.remove? with
  | some e => jsSpliceDelete1 list (jsIndexOf list e)
  | none => list

/-- The two-cell system created by `dependentState(state, getValue)`:
the source cell `src` and the privately owned `BasicState` (field
`dep`) that the combinator returns (read-only-shaped) to the caller. -/
structure DepSystem (V U : Type) where
  src : State V
  dep : State U

/-- Construction of `dependentState`: immediately evaluates
`getValue(state.get(), undefined, undefined)` and seeds the owned
`BasicState` with it.  `depEffects` are the effects subsequently
registered on the returned state. -/
def depSystemInit (getValue : V → Option V → Option U → U)
    (src : State V) (depEffects : List Nat) : DepSystem V U :=
  ⟨src, ⟨getValue src.value none none, depEffects⟩⟩

/-- One completed update of the source (reducer `handler`): the source
commits `handler trans old` and its effects fire with `(value, old)`;
the effect that `dependentState` registered computes
`getValue(value, old, dependentState.get())` and feeds it as the
transaction to the dependent `BasicState`'s update, which (identity
reducer) replaces the dependent value and fires the dependent's own
effects with `(newDependent, oldDependent)`.  Returns the new system
and the trace of dependent-effect invocations. -/
def DepSystem.srcUpdate (handler : T → V → V)
    (getValue : V → Option V → Option U → U) (s : DepSystem V U)
    (trans : T) : DepSystem V U × List (Call U) :=
  let old := s.src.value
  let v := handler trans old
  let trans2 := getValue v (some old) (some s.dep.value)
  let p := s.dep.update1 basicHandler trans2
  (⟨⟨v, s.src.effects⟩, p.1⟩, p.2)

/-- The system created by `joinedState(...states)`: the current values
of the N sources (index-aligned; the model uses one value type `V` for
all sources, heterogeneity being a type-level feature) and the
privately owned `BasicState` holding the joined tuple as a `List V`. -/
structure JoinSystem (V : Type) where
  srcs : List V
  joined : State (List V)

/-- Construction of `joinedState`: the joined `BasicState` is seeded
with the snapshot `states.map((s) => s.get())`;  `joinedEffects` are the
effects subsequently registered on the returned state. -/
def joinSystemInit (srcs : List V) (joinedEffects : List Nat) :
    JoinSystem V :=
  ⟨srcs, ⟨srcs, joinedEffects⟩⟩

/-- One committed update of source `i` to value `v`: source `i`'s
effects fire, and the effect `joinedState` registered on that source
re-reads `get()` from *all* sources and feeds the full tuple to the
joined `BasicState`'s update, firing the joined effects exactly once.
An index with no source (`i ≥ srcs.length`) corresponds to no API call
at all and leaves the system untouched with no invocation. -/
def JoinSystem.srcUpdate (s : JoinSystem V) (i : Nat) (v : V) :
    JoinSystem V × List (Call (List V)) :=
  if i < s.srcs.length then
    let srcs2 := s.srcs.set i v
    let p := s.joined.update1 basicHandler srcs2
    (⟨srcs2, p.1⟩, p.2)
  else (s, [])

/-- A sequence of committed source updates `(i, v)`, in order; returns
the final system and the per-update traces of joined-effect
invocations. -/
def JoinSystem.run (s : JoinSystem V) :
    List (Nat × V) → JoinSystem V × List (List (Call (List V)))
  | [] => (s, [])
  | e :: evs =>
    let p := s.srcUpdate e.1 e.2
    let q := p.1.run evs
    (q.1, p.2 :: q.2)

/-- The (before, after) pair of full source snapshots around each
successive source update: the k-th entry is (tuple of source values
immediately before the k-th update, tuple immediately after it). -/
def joinSteps : List V → List (Nat × V) → List (List V × List V)
  | _, [] => []
  | srcs, e :: evs =>
      (srcs, srcs.set e.1 e.2) :: joinSteps (srcs.set e.1 e.2) evs

/-- The system created by `lazyState(state, delay)`: the source value,
the privately owned dependent `BasicState`, the recorded latest source
value (`let last`; the source never reads it back — its own TODO says
"use the last variable"), the gate `let updated = true`, and the queue
of pending `setTimeout` tasks, each holding the `value` its closure
captured at schedule time.  Time is abstracted: a `timeout` event
models the host firing the oldest pending task once its `delay` has
elapsed. -/
structure LazySystem (V : Type) where
  src : V
  dep : State V
  last : V
  updated : Bool
  tasks : List V

/-- Construction of `lazyState`:
`const dependent = new BasicState(state.get()); let last = state.get();
let updated = true;` with no task pending.  `depEffects` are the
effects subsequently registered on the returned state. -/
def lazySystemInit (v0 : V) (depEffects : List Nat) : LazySystem V :=
  ⟨v0, ⟨v0, depEffects⟩, v0, true, []⟩

/-- An event in a `lazyState` execution: a committed source update
carrying the new source value, or the host firing a due timeout. -/
inductive LazyEvent (V : Type) where
  | srcUpdate (v : V)
  | timeout

/-- The effect `lazyState` registers on the source, at a source update
committing `v`: `last = value; if (updated) { updated = false;
setTimeout(..., delay) }`, the scheduled closure capturing `value`. -/
def LazySystem.srcStep (s : LazySystem V) (v : V) : LazySystem V :=
  if s.updated then ⟨v, s.dep, v, false, s.tasks ++ [v]⟩
  else ⟨v, s.dep, v, s.updated, s.tasks⟩

/-- The host fires the oldest pending deferred task (its delay having
elapsed): the task body is `dependent.update(value); updated = true;`
with `value` the closure-captured source value from schedule time; the
dependent's effects fire during the update.  With no pending task there
is nothing the host could fire. -/
def LazySystem.timeoutStep (s : LazySystem V) :
    LazySystem V × List (Call V) :=
  match s.tasks with
  | [] => (s, [])
  | c :: rest =>
    let p := s.dep.update1 basicHandler c
    (⟨s.src, p.1, s.last, true, rest⟩, p.2)

/-- One event of a `lazyState` execution, with the trace of dependent
effect invocations it produces. -/
def LazySystem.step (s : LazySystem V) :
    LazyEvent V → LazySystem V × List (Call V)
  | .srcUpdate v => (s.srcStep v, [])
  | .timeout => s.timeoutStep

/-- A whole `lazyState` execution: a sequence of events from a start
state, with the concatenated dependent-effect trace. -/
def LazySystem.run (s : LazySystem V) :
    List (LazyEvent V) → LazySystem V × List (Call V)
  | [] => (s, [])
  | e :: evs =>
    let p := s.step e
    let q := p.1.run evs
    (q.1, p.2 ++ q.2)

theorem State.runUpdates_eq (handler : T → V → V) (s : State V)
    (ts : List T) :
    (s.runUpdates handler ts).2 =
      (updSteps handler s.value ts).map
        (fun p => s.effects.map fun tag => (tag, p.2, p.1)) ∧
    (s.runUpdates handler ts).1 =
      ⟨(updSteps handler s.value ts).foldl (fun _ p => p.2) s.value,
        s.effects⟩ := by
  induction ts generalizing s with
  | nil => exact ⟨rfl, rfl⟩
  | cons t ts ih =>
    have h := ih ⟨handler t s.value, s.effects⟩
    refine ⟨?_, ?_⟩
    · simpa [State.runUpdates, State.update1, updSteps] using h.1
    · simpa [State.runUpdates, State.update1, updSteps] using h.2

theorem updSteps_length (handler : T → V → V) (v : V) (ts : List T) :
    (updSteps handler v ts).length = ts.length := by
  induction ts generalizing v with
  | nil => rfl
  | cons t ts ih => simpa [updSteps] using ih (handler t v)

theorem jsIndexOf_of_mem [DecidableEq E] {l : List E} {e : E}
    (h : e ∈ l) : jsIndexOf l e = (l.indexOf e : Int) := by
  unfold jsIndexOf
  rw [List.findIdx?_eq_some_of_exists ⟨e, h, by simp⟩]
  rfl

theorem jsSpliceDelete1_natCast (l : List E) (i : Nat)
    (h : i < l.length) : jsSpliceDelete1 l (i : Int) = l.eraseIdx i := by
  unfold jsSpliceDelete1
  rw [List.eraseIdx_eq_take_drop_succ]
  have h0 : ¬ ((i : Int) < 0) := by omega
  have h1 : min (i : Int) (l.length : Int) = (i : Int) := by omega
  simp [h0, h1]

theorem jsRemove_of_mem [DecidableEq E] {l : List E} {e : E}
    (h : e ∈ l) : jsSpliceDelete1 l (jsIndexOf l e) = l.erase e := by
  rw [jsIndexOf_of_mem h,
    jsSpliceDelete1_natCast l _ (List.indexOf_lt_length.2 h),
    List.eraseIdx_indexOf_eq_erase]

/-- C1: for every state — value `v0`, effects registered in order
`es` — and every sequence `ts` of N sequentially completed updates,
the i-th update's effect invocations are exactly the registered effects,
each invoked once, in registration order, every invocation receiving
`newValue` = the state's value immediately after the i-th update and
`oldValue` = the value immediately before it (so any effect registered
before the updates is invoked exactly N times). -/
theorem C1_effect_invocations (handler : T → V → V) (v0 : V)
    (es : List Nat) (ts : List T) :
    ((State.mk v0 es).runUpdates handler ts).2 =
      (updSteps handler v0 ts).map
        (fun p => es.map fun tag => (tag, p.2, p.1)) ∧
    ((State.mk v0 es).runUpdates handler ts).2.map (List.map Prod.fst) =
      ts.map (fun _ => es) ∧
    ((State.mk v0 es).runUpdates handler ts).2.length = ts.length := by
  have h := State.runUpdates_eq handler (State.mk v0 es) ts
  refine ⟨h.1, ?_, ?_⟩
  · rw [h.1, List.map_map]
    have h2 : (List.map Prod.fst ∘ fun p : V × V =>
        es.map fun tag => (tag, p.2, p.1)) = fun _ => es := by
      funext p
      simp [Function.comp_def]
    rw [h2, List.map_const', List.map_const', updSteps_length]
  · rw [h.1, List.length_map, updSteps_length]

/-- C9: for a reducer invocation that returns a plain (non-Promise)
value, the fire-and-forget `update(trans)` commits the new value and
invokes every registered effect during its synchronous phase, i.e.
before control returns to the caller: no `await` is pending, `get()`
already equals the reducer's result, and all effects for that update
have run (and nothing was thrown at the caller). -/
theorem C9_plain_reducer_commits_before_return
    (handler : T → V → HandlerResult V E) (s : State V) (trans : T)
    (v : V) (h : handler trans s.value = .immediate v) :
    (s.updateSyncPhase handler trans).state.value = v ∧
    (s.updateSyncPhase handler trans).calls =
      s.effects.map (fun tag => (tag, v, s.value)) ∧
    (s.updateSyncPhase handler trans).pendingAwait = false ∧
    (s.updateSyncPhase handler trans).callerThrown = none := by
  simp [State.updateSyncPhase, h]

/-- C9 witness: a concrete plain reducer over `Nat`, state value 10 with
two registered effects, transaction 5. -/
theorem C9_witness :
    incHandler 5 (State.mk 10 [0, 1]).value = .immediate 15 ∧
    ((State.mk 10 [0, 1]).updateSyncPhase incHandler 5).state.value = 15 ∧
    ((State.mk 10 [0, 1]).updateSyncPhase incHandler 5).calls =
      [(0, 15, 10), (1, 15, 10)] ∧
    ((State.mk 10 [0, 1]).updateSyncPhase incHandler 5).pendingAwait
      = false := by
  have h := C9_plain_reducer_commits_before_return incHandler
    (State.mk 10 [0, 1]) 5 15 rfl
  exact ⟨rfl, h.1, by simpa using h.2.1, h.2.2.1⟩

/-- C3 counterexample: a reducer that throws synchronously
(`throwingHandler`) on the cell with value 7 and one registered effect.
The value stays 7 and no effect fires, but nothing propagates to the
immediate caller of `update` — `callerThrown = none` because calling an
`async` method never raises synchronously; the error only becomes a
host-level unhandled rejection.  This refutes the claim's "the failure
propagates out of update … to the immediate caller". -/
theorem C3_counterexample :
    throwingHandler () (State.mk 7 [0]).value
      = HandlerResult.thrown "boom" ∧
    ((State.mk 7 [0]).updateSyncPhase throwingHandler ()).callerThrown
      = none ∧
    ((State.mk 7 [0]).updateSyncPhase
      throwingHandler ()).unhandledRejection = some "boom" ∧
    ((State.mk 7 [0]).updateSyncPhase throwingHandler ()).state.value
      = 7 ∧
    ((State.mk 7 [0]).updateSyncPhase throwingHandler ()).calls = [] :=
  ⟨rfl, rfl, rfl, rfl, rfl⟩

/-- C3 amended: when the reducer raises during synchronous execution,
the state's value remains unchanged and no effects fire for the failed
attempt; the failure rejects the Promise returned by `asyncUpdate` (so
a caller that awaits `asyncUpdate` observes it), while the
fire-and-forget `update` delivers nothing to its immediate caller and
the rejection surfaces as a host-level unhandled rejection. -/
theorem C3_amended_failed_reducer
    (handler : T → V → HandlerResult V E) (s : State V) (trans : T)
    (e : E) (h : handler trans s.value = .thrown e) :
    (s.asyncUpdateRun handler trans).state = s ∧
    (s.asyncUpdateRun handler trans).calls = [] ∧
    (s.asyncUpdateRun handler trans).promise = .error e ∧
    (s.updateSyncPhase handler trans).state = s ∧
    (s.updateSyncPhase handler trans).calls = [] ∧
    (s.updateSyncPhase handler trans).callerThrown = none ∧
    (s.updateSyncPhase handler trans).unhandledRejection = some e := by
  simp [State.asyncUpdateRun, State.updateSyncPhase, h]

/-- C3 amended, witness: the throwing reducer at state value 7, one
registered effect. -/
theorem C3_amended_witness :
    throwingHandler () (State.mk 7 [3]).value
      = HandlerResult.thrown "boom" ∧
    ((State.mk 7 [3]).asyncUpdateRun throwingHandler ()).state
      = State.mk 7 [3] ∧
    ((State.mk 7 [3]).asyncUpdateRun throwingHandler ()).calls = [] ∧
    ((State.mk 7 [3]).asyncUpdateRun throwingHandler ()).promise
      = Except.error "boom" :=
  have h := C3_amended_failed_reducer throwingHandler
    (State.mk 7 [3]) () "boom" rfl
  ⟨rfl, h.1, h.2.1, h.2.2.1⟩

/-- C2: evaluation at the failing input.  With current value `["b"]`,
`update({remove: "z"})` runs `list.splice(list.indexOf("z"), 1)`;
`indexOf` returns `-1` for the absent element and `splice(-1, 1)`
deletes the *last* element, so the result is `[]`, not the unchanged
`["b"]` the claim (and spec) require. -/
theorem C2_remove_absent_removes_last :
    arrayHandler ⟨none, some "z"⟩ ["b"] = [] ∧
    arrayHandler ⟨none, some "z"⟩ ["b"] ≠ ["b"] :=
  ⟨by decide, by decide⟩

/-- C8: `update({add: e})` appends `e` at the end; `update({remove: e})`
with `e` present removes the first occurrence of `e`; and the concrete
chain from the spec: `[] + add "a" = ["a"]`, `+ add "b" = ["a","b"]`,
`+ remove "a" = ["b"]`. -/
theorem C8_array_add_remove :
    (∀ (E : Type) [DecidableEq E] (xs : List E) (e : E),
        arrayHandler ⟨some e, none⟩ xs = xs ++ [e]) ∧
    (∀ (E : Type) [DecidableEq E] (xs : List E) (e : E), e ∈ xs →
        arrayHandler ⟨none, some e⟩ xs = xs.erase e) ∧
    arrayHandler ⟨some "a", none⟩ ([] : List String) = ["a"] ∧
    arrayHandler ⟨some "b", none⟩ ["a"] = ["a", "b"] ∧
    arrayHandler ⟨none, some "a"⟩ ["a", "b"] = ["b"] := by
  refine ⟨?_, ?_, by decide, by decide, by decide⟩
  · intro E inst xs e
    simp [arrayHandler]
  · intro E inst xs e h
    simpa [arrayHandler] using jsRemove_of_mem h

/-- C8 witness: removal of the (present) element 2 from `[1, 2, 3]`. -/
theorem C8_witness :
    2 ∈ [1, 2, 3] ∧
    arrayHandler ⟨none, some 2⟩ [1, 2, 3] = [1, 2, 3].erase 2 :=
  ⟨by decide, C8_array_add_remove.2.1 Nat [1, 2, 3] 2 (by decide)⟩

theorem JoinSystem.run_eq (srcs : List V) (es : List Nat)
    (evs : List (Nat × V))
    (hvalid : ∀ e ∈ evs, e.1 < srcs.length) :
    (JoinSystem.mk srcs ⟨srcs, es⟩).run evs =
      (JoinSystem.mk (evs.foldl (fun acc e => acc.set e.1 e.2) srcs)
          ⟨evs.foldl (fun acc e => acc.set e.1 e.2) srcs, es⟩,
        (joinSteps srcs evs).map
          (fun p => es.map fun tag => (tag, p.2, p.1))) := by
  induction evs generalizing srcs with
  | nil => rfl
  | cons e evs ih =>
    have he : e.1 < srcs.length := hvalid e (List.mem_cons_self e evs)
    have hrest : ∀ x ∈ evs, x.1 < (srcs.set e.1 e.2).length := by
      intro x hx
      rw [List.length_set]
      exact hvalid x (List.mem_cons_of_mem e hx)
    have h := ih (srcs.set e.1 e.2) hrest
    simp only [JoinSystem.run, JoinSystem.srcUpdate, State.update1,
      basicHandler, joinSteps, List.foldl_cons, List.map_cons, if_pos he]
    rw [h]

theorem lazy_step_tasks_invariant (s : LazySystem V) (e : LazyEvent V)
    (h : s.tasks.length = (if s.updated then 0 else 1)) :
    (s.step e).1.tasks.length =
      (if (s.step e).1.updated then 0 else 1) := by
  cases e with
  | srcUpdate v =>
    by_cases hu : s.updated
    · simp [LazySystem.step, LazySystem.srcStep, hu]
      simpa [hu] using h
    · simpa [LazySystem.step, LazySystem.srcStep, hu] using h
  | timeout =>
    match htasks : s.tasks with
    | [] => simpa [LazySystem.step, LazySystem.timeoutStep, htasks]
        using h
    | c :: rest =>
      rw [htasks] at h
      simp only [List.length_cons] at h
      have hr : rest.length = 0 := by
        cases hu : s.updated
        · rw [hu] at h
          simp only [Bool.false_eq_true, if_false] at h
          omega
        · rw [hu] at h
          simp only [if_true] at h
          omega
      simp [LazySystem.step, LazySystem.timeoutStep, htasks,
        State.update1, hr]

theorem lazy_run_tasks_invariant (v0 : V) (es : List Nat)
    (evs : List (LazyEvent V)) :
    ((lazySystemInit v0 es).run evs).1.tasks.length =
      (if ((lazySystemInit v0 es).run evs).1.updated then 0 else 1) := by
  suffices h : ∀ (s : LazySystem V),
      s.tasks.length = (if s.updated then 0 else 1) →
      (s.run evs).1.tasks.length =
        (if (s.run evs).1.updated then 0 else 1) by
    exact h _ (by simp [lazySystemInit])
  induction evs with
  | nil => intro s hs; exact hs
  | cons e evs ih =>
    intro s hs
    exact ih _ (lazy_step_tasks_invariant s e hs)

/-- C5: `dependentState` seeds its owned cell with
`getValue(state.get(), undefined, undefined)`; on every completed source
update it replaces the dependent value with
`getValue(newSourceValue, oldSourceValue, oldDependentValue)` and fires
the dependent state's own effects with `(newDependent, oldDependent)`;
and concretely, over `basic(42)` with `(n,_o,_od) => n+5` the dependent
starts at 47, and after the source updates to 69 it fires once with
`(74, 47)` and reads 74. -/
theorem C5_dependent_state (handler : T → V → V)
    (getValue : V → Option V → Option U → U) (src : State V)
    (es : List Nat) (s : DepSystem V U) (trans : T) :
    (depSystemInit getValue src es).dep.value
        = getValue src.value none none ∧
    (depSystemInit getValue src es).dep.effects = es ∧
    (s.srcUpdate handler getValue trans).1.dep.value
        = getValue (handler trans s.src.value) (some s.src.value)
            (some s.dep.value) ∧
    (s.srcUpdate handler getValue trans).2
        = s.dep.effects.map (fun tag =>
            (tag, getValue (handler trans s.src.value) (some s.src.value)
              (some s.dep.value), s.dep.value)) ∧
    (depSystemInit (fun (n : Nat) (_ : Option Nat) (_ : Option Nat) =>
        n + 5) (State.mk 42 []) [0]).dep.value = 47 ∧
    ((depSystemInit (fun (n : Nat) _ _ => n + 5) (State.mk 42 [])
        [0]).srcUpdate basicHandler (fun n _ _ => n + 5)
        69).1.dep.value = 74 ∧
    ((depSystemInit (fun (n : Nat) _ _ => n + 5) (State.mk 42 [])
        [0]).srcUpdate basicHandler (fun n _ _ => n + 5) 69).2
        = [(0, 74, 47)] :=
  ⟨rfl, rfl, rfl, rfl, rfl, rfl, rfl⟩

/-- C6: `joinedState`'s initial value is the index-aligned snapshot of
every source at construction; every committed update of one source
triggers exactly one recomputation that re-reads all sources, firing the
joined effects with the full post-update tuple (and the pre-update tuple
as old value): over any valid run there is exactly one firing batch per
source update, and the final joined value reflects all updates. -/
theorem C6_joined_state (srcs : List V) (es : List Nat)
    (evs : List (Nat × V))
    (hvalid : ∀ e ∈ evs, e.1 < srcs.length) :
    (joinSystemInit srcs es).joined.value = srcs ∧
    ((joinSystemInit srcs es).run evs).2 =
      (joinSteps srcs evs).map
        (fun p => es.map fun tag => (tag, p.2, p.1)) ∧
    ((joinSystemInit srcs es).run evs).2.length = evs.length ∧
    ((joinSystemInit srcs es).run evs).1.joined.value =
      evs.foldl (fun acc e => acc.set e.1 e.2) srcs := by
  have h := JoinSystem.run_eq srcs es evs hvalid
  have hlen : ∀ (l : List V) (xs : List (Nat × V)),
      (joinSteps l xs).length = xs.length := by
    intro l xs
    induction xs generalizing l with
    | nil => rfl
    | cons x xs ih => simpa [joinSteps] using ih (l.set x.1 x.2)
  refine ⟨rfl, ?_, ?_, ?_⟩
  · rw [show (joinSystemInit srcs es) = JoinSystem.mk srcs ⟨srcs, es⟩
      from rfl, h]
  · rw [show (joinSystemInit srcs es) = JoinSystem.mk srcs ⟨srcs, es⟩
      from rfl, h]
    simp [hlen]
  · rw [show (joinSystemInit srcs es) = JoinSystem.mk srcs ⟨srcs, es⟩
      from rfl, h]

/-- C6 witness: two sources `[10, 20]`, one joined effect; updating
source 0 to 11 and then source 1 to 22 produces exactly two firings,
`([11,20], [10,20])` then `([11,22], [11,20])`, the last reflecting both
new values. -/
theorem C6_witness :
    (∀ e ∈ [(0, 11), (1, 22)], e.1 < ([10, 20] : List Nat).length) ∧
    ((joinSystemInit [10, 20] [5]).run [(0, 11), (1, 22)]).2 =
      [[(5, [11, 20], [10, 20])], [(5, [11, 22], [11, 20])]] ∧
    ((joinSystemInit [10, 20] [5]).run [(0, 11), (1, 22)]).2.length
      = 2 ∧
    ((joinSystemInit [10, 20] [5]).run
      [(0, 11), (1, 22)]).1.joined.value = [11, 22] :=
  have h := C6_joined_state [10, 20] [5] [(0, 11), (1, 22)] (by decide)
  ⟨by decide, h.2.1, h.2.2.1, h.2.2.2⟩

/-- C10: `joinedState()` with zero sources: the joined value is the
empty tuple, and since no source exists, no event can ever drive it —
over every event sequence the system is unchanged and not a single
joined effect fires. -/
theorem C10_joined_zero_sources (es : List Nat)
    (evs : List (Nat × V)) :
    (joinSystemInit ([] : List V) es).joined.value = [] ∧
    ((joinSystemInit ([] : List V) es).run evs).1
      = joinSystemInit [] es ∧
    ((joinSystemInit ([] : List V) es).run evs).2.flatten = [] := by
  refine ⟨rfl, ?_, ?_⟩
  · induction evs with
    | nil => rfl
    | cons e evs ih =>
      simpa [JoinSystem.run, JoinSystem.srcUpdate, joinSystemInit]
        using ih
  · induction evs with
    | nil => rfl
    | cons e evs ih =>
      simpa [JoinSystem.run, JoinSystem.srcUpdate, joinSystemInit]
        using ih

/-- C4 counterexample: source updates committing 1 and then 2 within one
debounce window, then the deferred task fires.  The most recently
observed source value at that moment is 2 (field `last`), but the task
pushes its closure-captured schedule-time value 1 into the dependent
cell — refuting "pushes the most recently observed source value (the
latest value recorded across all source updates up to the moment the
task runs)". -/
theorem C4_counterexample :
    (((lazySystemInit (0 : Nat) [0]).run
      [.srcUpdate 1, .srcUpdate 2, .timeout]).1.dep.value = 1 ∧
     ((lazySystemInit (0 : Nat) [0]).run
      [.srcUpdate 1, .srcUpdate 2, .timeout]).1.last = 2 ∧
     ((lazySystemInit (0 : Nat) [0]).run
      [.srcUpdate 1, .srcUpdate 2, .timeout]).1.dep.value ≠
       ((lazySystemInit (0 : Nat) [0]).run
      [.srcUpdate 1, .srcUpdate 2, .timeout]).1.last) :=
  ⟨rfl, rfl, by decide⟩

/-- C4 amended: the deferred task, when it runs after `delay` elapses,
pushes the source value captured at schedule time (the value committed
by the update that opened the debounce window) into the dependent cell
via update — firing the dependent's effects with it — and then resets
the ready gate (`updated`) to true. -/
theorem C4_amended_task_pushes_captured (s : LazySystem V) (c : V)
    (rest : List V) (h : s.tasks = c :: rest) :
    s.timeoutStep.1.dep.value = c ∧
    s.timeoutStep.1.updated = true ∧
    s.timeoutStep.2 = s.dep.effects.map
      (fun tag => (tag, c, s.dep.value)) ∧
    s.timeoutStep.1.tasks = rest := by
  simp [LazySystem.timeoutStep, h, State.update1, basicHandler]

/-- C4 amended, witness: a pending task carrying captured value 1 while
`last = 2`; firing it pushes 1 and reopens the gate. -/
theorem C4_amended_witness :
    (LazySystem.mk (2 : Nat) (State.mk 0 [0]) 2 false [1]).tasks
      = [1] ∧
    (LazySystem.mk (2 : Nat) (State.mk 0 [0]) 2 false
      [1]).timeoutStep.1.dep.value = 1 ∧
    (LazySystem.mk (2 : Nat) (State.mk 0 [0]) 2 false
      [1]).timeoutStep.1.updated = true ∧
    (LazySystem.mk (2 : Nat) (State.mk 0 [0]) 2 false
      [1]).timeoutStep.2 = [(0, 1, 0)] :=
  have h := C4_amended_task_pushes_captured
    (LazySystem.mk (2 : Nat) (State.mk 0 [0]) 2 false [1]) 1 [] rfl
  ⟨rfl, h.1, h.2.1, by simpa using h.2.2.1⟩

/-- C7: at every point of every `lazyState` execution at most one
deferred task is in flight (the pending-task queue never holds more
than one element), and while the gate is closed (`updated = false`) a
source update only records the latest observed value — same `dep`, same
task queue, no new task scheduled — and fires nothing on the dependent
state. -/
theorem C7_one_task_in_flight (v0 : V) (es : List Nat)
    (evs : List (LazyEvent V)) (s : LazySystem V) (v : V)
    (h : s.updated = false) :
    ((lazySystemInit v0 es).run evs).1.tasks.length ≤ 1 ∧
    s.srcStep v = LazySystem.mk v s.dep v false s.tasks ∧
    (s.step (.srcUpdate v)).2 = [] := by
  refine ⟨?_, ?_, rfl⟩
  · have hinv := lazy_run_tasks_invariant v0 es evs
    rw [hinv]
    split <;> omega
  · simp [LazySystem.srcStep, h]

/-- C7 witness: after the window-opening update (value 1), a second
update (value 2) with the gate closed only records `last = 2`,
scheduling nothing; and a concrete three-event run keeps at most one
task pending. -/
theorem C7_witness :
    (LazySystem.mk (1 : Nat) (State.mk 0 [0]) 1 false [1]).updated
      = false ∧
    (((lazySystemInit (0 : Nat) [0]).run
      [.srcUpdate 1, .srcUpdate 2, .timeout]).1.tasks.length ≤ 1 ∧
     (LazySystem.mk (1 : Nat) (State.mk 0 [0]) 1 false [1]).srcStep 2
       = LazySystem.mk 2 (State.mk 0 [0]) 2 false [1] ∧
     ((LazySystem.mk (1 : Nat) (State.mk 0 [0]) 1 false [1]).step
       (.srcUpdate 2)).2 = []) :=
  ⟨rfl, C7_one_task_in_flight 0 [0] [.srcUpdate 1, .srcUpdate 2,
    .timeout] (LazySystem.mk (1 : Nat) (State.mk 0 [0]) 1 false [1]) 2
    rfl⟩

end Statec
